import Mathlib

/-!
Verification development for the watchd execution and state-persistence
subsystem: a shallow embedding of `store.py` (SQLite-backed storage layer),
`agent.py` (StateProxy, AgentContext) and `runner.py` (retry-aware
executor and thread-local output capture), with theorems checking the
documented behaviour.

Modelling conventions:
- Persisted values are serialized text; `jsonDumps` and `jsonLoads` model
  the external json library (a total encoder and a partial decoder that
  fails on malformed text, as `json.loads` raises).
- Timestamps are natural numbers (milliseconds); the wall clock is passed
  in as explicit parameters.
- The store carries an operation log so that claims about which storage
  operations happen (or do not happen) can be stated.
- A raised Python exception is modelled by an `Option String` or
  `Except String` result carrying the formatted message text; a
  `BaseException` that is not an `Exception` (an interruption) is kept
  apart, mirroring the two handler levels in `execute_agent`.
- Diagnostic logging output from the runner is not modelled.
-/

namespace Watchd

deriving instance DecidableEq for Except

/-- JSON-like values stored in agent state (model of what json handles). -/
inductive JValue where
  | jnull : JValue
  | jbool : Bool → JValue
  | jint : Int → JValue
  | jstr : String → JValue
deriving DecidableEq, Repr

/-- Model of json.dumps on the values above. -/
def jsonDumps : JValue → String
  | JValue.jnull => "null"
  | JValue.jbool true => "true"
  | JValue.jbool false => "false"
  | JValue.jint n => toString n
  | JValue.jstr s => "\"" ++ s ++ "\""

/-- Value of a decimal digit character. -/
def digitVal (c : Char) : Option Nat :=
  if c = '0' then some 0 else if c = '1' then some 1
  else if c = '2' then some 2 else if c = '3' then some 3
  else if c = '4' then some 4 else if c = '5' then some 5
  else if c = '6' then some 6 else if c = '7' then some 7
  else if c = '8' then some 8 else if c = '9' then some 9 else none

/-- Accumulating decimal parser over characters. -/
def parseDigitsAux : List Char → Nat → Option Nat
  | [], acc => some acc
  | c :: rest, acc =>
    match digitVal c with
    | none => none
    | some d => parseDigitsAux rest (acc * 10 + d)

/-- Parse an optionally negated decimal integer. -/
def parseInt : List Char → Option Int
  | [] => none
  | c :: rest =>
    if c = '-' then
      match rest with
      | [] => none
      | _ => Option.map (fun n => -(n : Int)) (parseDigitsAux rest 0)
    else Option.map (fun n => (n : Int)) (parseDigitsAux (c :: rest) 0)

/-- Model of json.loads: partial inverse of `jsonDumps`; `none` models the
json.JSONDecodeError raised on malformed text. -/
def jsonLoads (s : String) : Option JValue :=
  if s = "null" then some JValue.jnull
  else if s = "true" then some (JValue.jbool true)
  else if s = "false" then some (JValue.jbool false)
  else
    match s.data with
    | [] => none
    | c :: rest =>
      if c = '"' then
        match rest.getLast? with
        | some d =>
          if d = '"' ∧ rest ≠ [] then some (JValue.jstr (String.mk rest.dropLast))
          else none
        | none => none
      else
        match parseInt (c :: rest) with
        | some n => some (JValue.jint n)
        | none => none

/-- The message text of the exception json.loads raises on malformed text. -/
def jsonDecodeErrorText (s : String) : String :=
  "json.decoder.JSONDecodeError: Expecting value: " ++ s

/-- The message text of the KeyError raised on a missing mapping key. -/
def keyErrorText (k : String) : String :=
  "KeyError: " ++ k

/-- Python str() on a JSON-like value. -/
def pyStr : JValue → String
  | JValue.jnull => "None"
  | JValue.jbool true => "True"
  | JValue.jbool false => "False"
  | JValue.jint n => toString n
  | JValue.jstr s => s

/-- A row of the runs table, and the Run dataclass of store.py. -/
structure Run where
  id : String
  agent : String
  status : String := "running"
  result : Option String := none
  output : Option String := none
  error : Option String := none
  started_at : Option Nat := none
  finished_at : Option Nat := none
  duration_ms : Option Nat := none
deriving DecidableEq, Repr

/-- One storage operation, recorded in the store log. -/
inductive StoreOp where
  | saveRun : String → StoreOp
  | updateRun : String → StoreOp
  | readState : String → StoreOp
  | writeStateBulk : String → List (String × JValue) → StoreOp
  | deleteStateKeys : String → List String → StoreOp
deriving DecidableEq, Repr

/-- The durable store: runs table, agent_state table (rows of
agent, key, serialized value), and the log of operations performed. -/
structure StoreState where
  runs : List Run
  agent_state : List (String × String × String)
  log : List StoreOp
deriving DecidableEq, Repr

/-- Store.save_run: INSERT of a fresh Run row. -/
def Store.save_run (st : StoreState) (r : Run) : StoreState :=
  { st with runs := st.runs ++ [r], log := st.log ++ [StoreOp.saveRun r.id] }

/-- The fields UPDATE writes onto an existing row (store.update_run). -/
def applyUpdate (r row : Run) : Run :=
  { row with status := r.status, result := r.result, output := r.output,
             error := r.error, finished_at := r.finished_at,
             duration_ms := r.duration_ms }

/-- Store.update_run: UPDATE of the row with matching id. -/
def Store.update_run (st : StoreState) (r : Run) : StoreState :=
  { st with
    runs := st.runs.map (fun row => if row.id = r.id then applyUpdate r row else row),
    log := st.log ++ [StoreOp.updateRun r.id] }

/-- SELECT key, value FROM agent_state WHERE agent = a (in table order). -/
def selectState (tbl : List (String × String × String)) (a : String) :
    List (String × String) :=
  (tbl.filter (fun row => decide (row.1 = a))).map (fun row => (row.2.1, row.2.2))

/-- Deserialize the selected rows; the first malformed value raises. -/
def decodeStateRows : List (String × String) → Except String (List (String × JValue))
  | [] => Except.ok []
  | (k, s) :: rest =>
    match jsonLoads s with
    | none => Except.error (jsonDecodeErrorText s)
    | some v =>
      match decodeStateRows rest with
      | Except.error e => Except.error e
      | Except.ok d => Except.ok ((k, v) :: d)

/-- Store.get_state: read and deserialize the full state of one agent.
A malformed stored value surfaces as the error case. -/
def Store.get_state (st : StoreState) (a : String) :
    StoreState × Except String (List (String × JValue)) :=
  ({ st with log := st.log ++ [StoreOp.readState a] },
   decodeStateRows (selectState st.agent_state a))

/-- SQL upsert of one agent_state row: update in place when the primary key
(agent, key) exists, append otherwise. -/
def upsertState : List (String × String × String) → String → String → String →
    List (String × String × String)
  | [], a, k, sval => [(a, k, sval)]
  | row :: rest, a, k, sval =>
    if row.1 = a ∧ row.2.1 = k then (a, k, sval) :: rest
    else row :: upsertState rest a k sval

/-- Store.set_state_bulk: upsert every entry, serialized, in dict order. -/
def Store.set_state_bulk (st : StoreState) (a : String)
    (data : List (String × JValue)) : StoreState :=
  { st with
    agent_state := data.foldl (fun tbl kv => upsertState tbl a kv.1 (jsonDumps kv.2)) st.agent_state,
    log := st.log ++ [StoreOp.writeStateBulk a data] }

/-- Store.delete_state_keys: DELETE every (agent, key) row with key in keys. -/
def Store.delete_state_keys (st : StoreState) (a : String) (keys : List String) :
    StoreState :=
  { st with
    agent_state := st.agent_state.filter (fun row => !(decide (row.1 = a ∧ row.2.1 ∈ keys))),
    log := st.log ++ [StoreOp.deleteStateKeys a keys] }

/-- Number of runs table rows bearing a given id. -/
def countRuns (runs : List Run) (id : String) : Nat :=
  (runs.filter (fun r => decide (r.id = id))).length

/-- First runs table row bearing a given id. -/
def runLookup (runs : List Run) (id : String) : Option Run :=
  runs.find? (fun r => decide (r.id = id))

/-- The serialized value stored for (agent, key), when present. -/
def stateLookup (tbl : List (String × String × String)) (a k : String) :
    Option String :=
  (tbl.find? (fun row => decide (row.1 = a ∧ row.2.1 = k))).map (fun row => row.2.2)

/-- Lookup in an association list with Python dict semantics. -/
def alGet : List (String × JValue) → String → Option JValue
  | [], _ => none
  | (k, v) :: rest, key => if k = key then some v else alGet rest key

/-- Dict assignment: update in place when the key exists, append otherwise. -/
def alInsert : List (String × JValue) → String → JValue → List (String × JValue)
  | [], key, v => [(key, v)]
  | (k, w) :: rest, key, v =>
    if k = key then (key, v) :: rest else (k, w) :: alInsert rest key v

/-- Dict deletion of a key (first occurrence). -/
def alErase : List (String × JValue) → String → List (String × JValue)
  | [], _ => []
  | (k, w) :: rest, key => if k = key then rest else (k, w) :: alErase rest key

/-- Set insertion for the pending-deletion key set. -/
def slInsert (l : List String) (k : String) : List String :=
  if k ∈ l then l else l ++ [k]

/-- agent.StateProxy: lazily loaded, dirty-tracked view of one agent state.
`data` is none until the first load; `dirty` holds pending upserts and
`deleted_keys` pending deletions. -/
structure StateProxy where
  agent : String
  data : Option (List (String × JValue))
  dirty : List (String × JValue)
  deleted_keys : List String
deriving Repr

/-- StateProxy.__init__. -/
def mkStateProxy (a : String) : StateProxy :=
  { agent := a, data := none, dirty := [], deleted_keys := [] }

/-- StateProxy._load: fetch the backing data on first access; a
deserialization failure surfaces as the `some` message and leaves the
proxy unloaded. -/
def StateProxy.load (p : StateProxy) (st : StoreState) :
    StateProxy × StoreState × Option String :=
  match p.data with
  | some _ => (p, st, none)
  | none =>
    match Store.get_state st p.agent with
    | (st', Except.error e) => (p, st', some e)
    | (st', Except.ok d) => ({ p with data := some d }, st', none)

/-- StateProxy.__getitem__: load, then read; a missing key raises KeyError. -/
def StateProxy.getItem (p : StateProxy) (st : StoreState) (key : String) :
    StateProxy × StoreState × Except String JValue :=
  match p.load st with
  | (p', st', some e) => (p', st', Except.error e)
  | (p', st', none) =>
    match alGet (p'.data.getD []) key with
    | none => (p', st', Except.error (keyErrorText key))
    | some v => (p', st', Except.ok v)

/-- StateProxy.__setitem__: load, update the in-memory view, record the
pending upsert. -/
def StateProxy.setItem (p : StateProxy) (st : StoreState) (key : String)
    (v : JValue) : StateProxy × StoreState × Option String :=
  match p.load st with
  | (p', st', some e) => (p', st', some e)
  | (p', st', none) =>
    ({ p' with data := some (alInsert (p'.data.getD []) key v),
               dirty := alInsert p'.dirty key v }, st', none)

/-- StateProxy.__delitem__: load, delete from the in-memory view (KeyError
when absent), record the pending deletion, cancel any pending upsert. -/
def StateProxy.delItem (p : StateProxy) (st : StoreState) (key : String) :
    StateProxy × StoreState × Option String :=
  match p.load st with
  | (p', st', some e) => (p', st', some e)
  | (p', st', none) =>
    match alGet (p'.data.getD []) key with
    | none => (p', st', some (keyErrorText key))
    | some _ =>
      ({ p' with data := some (alErase (p'.data.getD []) key),
                 deleted_keys := slInsert p'.deleted_keys key,
                 dirty := alErase p'.dirty key }, st', none)

/-- StateProxy.flush: no-op when never loaded; otherwise apply pending
deletions first, then pending upserts in bulk, clearing each set. -/
def StateProxy.flush (p : StateProxy) (st : StoreState) :
    StateProxy × StoreState :=
  match p.data with
  | none => (p, st)
  | some _ =>
    let step1 : StateProxy × StoreState :=
      if p.deleted_keys = [] then (p, st)
      else ({ p with deleted_keys := [] },
            Store.delete_state_keys st p.agent p.deleted_keys)
    if step1.1.dirty = [] then step1
    else ({ step1.1 with dirty := [] },
          Store.set_state_bulk step1.2 step1.1.agent step1.1.dirty)

/-- agent.AgentContext: the per-run bundle; `stateCache` is the _state
attribute backing the state property. -/
structure AgentContext where
  agent_name : String
  run_id : String
  stateCache : Option StateProxy
deriving Repr

/-- AgentContext.state property: create the StateProxy on first access and
cache it; later accesses return the cached instance. -/
def AgentContext.state (c : AgentContext) : StateProxy × AgentContext :=
  match c.stateCache with
  | some p => (p, c)
  | none =>
    let p := mkStateProxy c.agent_name
    (p, { c with stateCache := some p })

/-- One observable action of the agent callable against its context. -/
inductive AgentStep where
  | getS : String → AgentStep
  | setS : String → JValue → AgentStep
  | delS : String → AgentStep
  | echo : String → AgentStep
deriving DecidableEq, Repr

/-- How one invocation of the agent callable ends: normal return (with the
optional return value), a raised Exception (recoverable), or a raised
BaseException that is not an Exception (a non-recoverable interruption),
carrying its type name and message. -/
inductive AttemptResult where
  | ok : Option JValue → AttemptResult
  | exc : String → AttemptResult
  | intr : String → String → AttemptResult
deriving DecidableEq, Repr

/-- Interpret the state and output actions of the callable; the first
raised exception aborts the rest and is returned as `some` message. -/
def interpSteps : List AgentStep → StateProxy → StoreState → String →
    StateProxy × StoreState × String × Option String
  | [], p, st, buf => (p, st, buf, none)
  | AgentStep.echo s :: rest, p, st, buf => interpSteps rest p st (buf ++ s)
  | AgentStep.getS k :: rest, p, st, buf =>
    match p.getItem st k with
    | (p', st', Except.error e) => (p', st', buf, some e)
    | (p', st', Except.ok _) => interpSteps rest p' st' buf
  | AgentStep.setS k v :: rest, p, st, buf =>
    match p.setItem st k v with
    | (p', st', some e) => (p', st', buf, some e)
    | (p', st', none) => interpSteps rest p' st' buf
  | AgentStep.delS k :: rest, p, st, buf =>
    match p.delItem st k with
    | (p', st', some e) => (p', st', buf, some e)
    | (p', st', none) => interpSteps rest p' st' buf

/-- An agent callable: for each attempt number, a transformer of the proxy,
the store and the captured output buffer, ending in an AttemptResult. -/
def AgentFn : Type :=
  Nat → StateProxy → StoreState → String →
    StateProxy × StoreState × String × AttemptResult

/-- A concrete agent callable given by per-attempt step lists and a final
action once the steps ran without raising. -/
structure StepProgram where
  steps : Nat → List AgentStep
  after : Nat → AttemptResult

/-- The agent callable induced by a StepProgram: an exception raised by a
step is the attempt result; otherwise the declared final action is. -/
def stepsFn (prog : StepProgram) : AgentFn := fun i p st buf =>
  match interpSteps (prog.steps i) p st buf with
  | (p', st', buf', some e) => (p', st', buf', AttemptResult.exc e)
  | (p', st', buf', none) => (p', st', buf', prog.after i)

/-- Result of the retry loop of execute_agent. -/
structure LoopOut where
  p : StateProxy
  st : StoreState
  buf : String
  run : Run
  lastError : Option String
  invocations : Nat
  interrupted : Option (String × String)

/-- The retry loop of execute_agent: up to `fuel` attempts starting at
attempt index `idx`; success breaks with last_error cleared, a recoverable
exception is recorded as last_error and retried, an interruption aborts
the loop. -/
def attemptLoop (fn : AgentFn) : Nat → Nat → StateProxy → StoreState →
    String → Run → Option String → LoopOut
  | 0, _, p, st, buf, run, lastErr =>
    { p := p, st := st, buf := buf, run := run, lastError := lastErr,
      invocations := 0, interrupted := none }
  | fuel + 1, idx, p, st, buf, run, lastErr =>
    match fn idx p st buf with
    | (p', st', buf', AttemptResult.ok v) =>
      { p := p', st := st', buf := buf',
        run := { run with status := "success", result := Option.map pyStr v },
        lastError := none, invocations := 1, interrupted := none }
    | (p', st', buf', AttemptResult.exc m) =>
      let out := attemptLoop fn fuel (idx + 1) p' st' buf' run (some m)
      { out with invocations := out.invocations + 1 }
    | (p', st', buf', AttemptResult.intr n m) =>
      { p := p', st := st', buf := buf', run := run, lastError := lastErr,
        invocations := 1, interrupted := some (n, m) }

/-- What execute_agent produces: the returned Run, the final store, the
number of callable invocations, and the interruption re-raised to the
caller when one occurred. -/
structure ExecOut where
  run : Run
  st : StoreState
  invocations : Nat
  raised : Option (String × String)

/-- runner.execute_agent: persist a RUNNING row, run the retry loop with a
fresh context, then unconditionally finalize: flush the state proxy,
record output, finished_at and duration_ms, and update the Run row. An
interruption is re-raised after finalization (`raised`). -/
def execute_agent (agentName : String) (retries : Nat) (fn : AgentFn)
    (run_id : String) (st0 : StoreState) (t0 t1 : Nat) : ExecOut :=
  let run0 : Run := { id := run_id, agent := agentName, status := "running",
                      started_at := some t0 }
  let st1 := Store.save_run st0 run0
  let out := attemptLoop fn (1 + retries) 1 (mkStateProxy agentName) st1 "" run0 none
  let run1 :=
    match out.interrupted with
    | some nm =>
      { out.run with status := "error", error := some (nm.1 ++ ": " ++ nm.2) }
    | none =>
      match out.lastError with
      | some e => { out.run with status := "error", error := some e }
      | none => out.run
  let fl := StateProxy.flush out.p out.st
  let run2 := { run1 with
    output := if out.buf = "" then none else some out.buf,
    finished_at := some t1,
    duration_ms := some (t1 - t0) }
  let st2 := Store.update_run fl.2 run2
  { run := run2, st := st2, invocations := out.invocations,
    raised := out.interrupted }

/-- The process-wide capture state of runner._ThreadSafeStream: for each
worker thread, the optional active capture buffer (the threading.local buf
attribute), plus the original stream contents. -/
structure CaptureState where
  bufs : Nat → Option String
  original : String

/-- _ThreadSafeStream.write called from thread tid: append to the calling
thread active buffer when set, and always forward to the original. -/
def tsWrite (cs : CaptureState) (tid : Nat) (s : String) : CaptureState :=
  { bufs := fun t => if t = tid then Option.map (fun b => b ++ s) (cs.bufs tid)
                     else cs.bufs t,
    original := cs.original ++ s }

/-- Events of the capture subsystem: opening a capture scope on a worker
(_local.buf = StringIO()), closing it (_local.buf = None), and a write. -/
inductive CapEvent where
  | setBuf : Nat → CapEvent
  | clearBuf : Nat → CapEvent
  | write : Nat → String → CapEvent
deriving DecidableEq, Repr

/-- The worker thread an event happens on. -/
def eventTid : CapEvent → Nat
  | CapEvent.setBuf t => t
  | CapEvent.clearBuf t => t
  | CapEvent.write t _ => t

/-- Apply one capture event. -/
def capStep (cs : CaptureState) : CapEvent → CaptureState
  | CapEvent.setBuf tid =>
    { cs with bufs := fun t => if t = tid then some "" else cs.bufs t }
  | CapEvent.clearBuf tid =>
    { cs with bufs := fun t => if t = tid then none else cs.bufs t }
  | CapEvent.write tid s => tsWrite cs tid s

/-- Apply an interleaved trace of capture events. -/
def runTrace (cs : CaptureState) : List CapEvent → CaptureState
  | [] => cs
  | e :: rest => runTrace (capStep cs e) rest

/-- Concatenation of everything written in a trace. -/
def writesOf : List CapEvent → String
  | [] => ""
  | CapEvent.write _ s :: rest => s ++ writesOf rest
  | _ :: rest => writesOf rest

/-! Helper lemmas about the storage layer. -/

theorem get_state_runs (st : StoreState) (a : String) :
    (Store.get_state st a).1.runs = st.runs := rfl

theorem get_state_agent_state (st : StoreState) (a : String) :
    (Store.get_state st a).1.agent_state = st.agent_state := rfl

theorem load_runs (p : StateProxy) (st : StoreState) :
    ((p.load st).2.1).runs = st.runs := by
  cases h : p.data <;>
    simp [StateProxy.load, h, Store.get_state] <;>
    cases decodeStateRows (selectState st.agent_state p.agent) <;> simp

theorem load_agent_state (p : StateProxy) (st : StoreState) :
    ((p.load st).2.1).agent_state = st.agent_state := by
  cases h : p.data <;>
    simp [StateProxy.load, h, Store.get_state] <;>
    cases decodeStateRows (selectState st.agent_state p.agent) <;> simp

theorem getItem_runs (p : StateProxy) (st : StoreState) (k : String) :
    ((p.getItem st k).2.1).runs = st.runs := by
  have h := load_runs p st
  rcases hl : p.load st with ⟨p', st', e⟩
  rw [hl] at h
  cases e <;> simp_all [StateProxy.getItem, hl]
  cases alGet (p'.data.getD []) k <;> simp_all

theorem getItem_agent_state (p : StateProxy) (st : StoreState) (k : String) :
    ((p.getItem st k).2.1).agent_state = st.agent_state := by
  have h := load_agent_state p st
  rcases hl : p.load st with ⟨p', st', e⟩
  rw [hl] at h
  cases e <;> simp_all [StateProxy.getItem, hl]
  cases alGet (p'.data.getD []) k <;> simp_all

theorem setItem_runs (p : StateProxy) (st : StoreState) (k : String) (v : JValue) :
    ((p.setItem st k v).2.1).runs = st.runs := by
  have h := load_runs p st
  rcases hl : p.load st with ⟨p', st', e⟩
  rw [hl] at h
  cases e <;> simp_all [StateProxy.setItem, hl]

theorem setItem_agent_state (p : StateProxy) (st : StoreState) (k : String)
    (v : JValue) : ((p.setItem st k v).2.1).agent_state = st.agent_state := by
  have h := load_agent_state p st
  rcases hl : p.load st with ⟨p', st', e⟩
  rw [hl] at h
  cases e <;> simp_all [StateProxy.setItem, hl]

theorem delItem_runs (p : StateProxy) (st : StoreState) (k : String) :
    ((p.delItem st k).2.1).runs = st.runs := by
  have h := load_runs p st
  rcases hl : p.load st with ⟨p', st', e⟩
  rw [hl] at h
  cases e <;> simp_all [StateProxy.delItem, hl]
  cases alGet (p'.data.getD []) k <;> simp_all

theorem delItem_agent_state (p : StateProxy) (st : StoreState) (k : String) :
    ((p.delItem st k).2.1).agent_state = st.agent_state := by
  have h := load_agent_state p st
  rcases hl : p.load st with ⟨p', st', e⟩
  rw [hl] at h
  cases e <;> simp_all [StateProxy.delItem, hl]
  cases alGet (p'.data.getD []) k <;> simp_all

theorem interpSteps_runs (steps : List AgentStep) :
    ∀ p st buf, ((interpSteps steps p st buf).2.1).runs = st.runs := by
  induction steps with
  | nil => intro p st buf; rfl
  | cons s rest ih =>
    intro p st buf
    cases s with
    | echo t => simpa [interpSteps] using ih p st (buf ++ t)
    | getS k =>
      have h := getItem_runs p st k
      rcases hg : p.getItem st k with ⟨p', st', r⟩
      rw [hg] at h
      cases r <;> simp_all [interpSteps, hg, ih p' st' buf]
    | setS k v =>
      have h := setItem_runs p st k v
      rcases hg : p.setItem st k v with ⟨p', st', r⟩
      rw [hg] at h
      cases r <;> simp_all [interpSteps, hg, ih p' st' buf]
    | delS k =>
      have h := delItem_runs p st k
      rcases hg : p.delItem st k with ⟨p', st', r⟩
      rw [hg] at h
      cases r <;> simp_all [interpSteps, hg, ih p' st' buf]

theorem interpSteps_agent_state (steps : List AgentStep) :
    ∀ p st buf, ((interpSteps steps p st buf).2.1).agent_state = st.agent_state := by
  induction steps with
  | nil => intro p st buf; rfl
  | cons s rest ih =>
    intro p st buf
    cases s with
    | echo t => simpa [interpSteps] using ih p st (buf ++ t)
    | getS k =>
      have h := getItem_agent_state p st k
      rcases hg : p.getItem st k with ⟨p', st', r⟩
      rw [hg] at h
      cases r <;> simp_all [interpSteps, hg, ih p' st' buf]
    | setS k v =>
      have h := setItem_agent_state p st k v
      rcases hg : p.setItem st k v with ⟨p', st', r⟩
      rw [hg] at h
      cases r <;> simp_all [interpSteps, hg, ih p' st' buf]
    | delS k =>
      have h := delItem_agent_state p st k
      rcases hg : p.delItem st k with ⟨p', st', r⟩
      rw [hg] at h
      cases r <;> simp_all [interpSteps, hg, ih p' st' buf]

theorem flush_runs (p : StateProxy) (st : StoreState) :
    ((p.flush st).2).runs = st.runs := by
  cases h : p.data <;>
    simp [StateProxy.flush, h, Store.delete_state_keys, Store.set_state_bulk] <;>
    split_ifs <;> simp [Store.delete_state_keys, Store.set_state_bulk]

theorem update_run_agent_state (st : StoreState) (r : Run) :
    (Store.update_run st r).agent_state = st.agent_state := rfl

theorem countRuns_append_self (runs : List Run) (r : Run) :
    countRuns (runs ++ [r]) r.id = countRuns runs r.id + 1 := by
  simp [countRuns, List.filter_append]

theorem countRuns_map_id_preserving (runs : List Run) (f : Run → Run)
    (hf : ∀ x, (f x).id = x.id) (id : String) :
    countRuns (runs.map f) id = countRuns runs id := by
  induction runs with
  | nil => rfl
  | cons a l ih =>
    simp only [countRuns, List.map_cons, List.filter_cons] at *
    rw [hf a]
    split_ifs <;> simp_all

theorem countRuns_update (st : StoreState) (r : Run) (id : String) :
    countRuns (Store.update_run st r).runs id = countRuns st.runs id := by
  apply countRuns_map_id_preserving
  intro x
  split_ifs <;> simp [applyUpdate]

theorem runLookup_append_self (runs : List Run) (r : Run)
    (h : countRuns runs r.id = 0) : runLookup (runs ++ [r]) r.id = some r := by
  induction runs with
  | nil => simp [runLookup, List.find?]
  | cons a l ih =>
    simp only [countRuns, List.filter_cons] at h
    by_cases ha : a.id = r.id
    · simp [ha] at h
    · simp only [runLookup, List.cons_append, List.find?_cons] at *
      simp only [ha, decide_eq_true_eq, if_false] at h ⊢
      exact ih (by simpa [countRuns] using h)

theorem runLookup_map_id_preserving (runs : List Run) (f : Run → Run)
    (hf : ∀ x, (f x).id = x.id) (id : String) :
    runLookup (runs.map f) id = Option.map f (runLookup runs id) := by
  induction runs with
  | nil => rfl
  | cons a l ih =>
    simp only [runLookup, List.map_cons, List.find?_cons] at *
    rw [hf a]
    by_cases hid : a.id = id <;> simp_all

theorem runLookup_update (st : StoreState) (r : Run) :
    runLookup (Store.update_run st r).runs r.id =
      Option.map (applyUpdate r) (runLookup st.runs r.id) := by
  have hrw : runLookup (Store.update_run st r).runs r.id =
      Option.map (fun row => if row.id = r.id then applyUpdate r row else row)
        (runLookup st.runs r.id) := by
    apply runLookup_map_id_preserving
    intro x
    split_ifs <;> simp [applyUpdate]
  rw [hrw]
  cases h : runLookup st.runs r.id with
  | none => rfl
  | some row =>
    have hp := List.find?_some h
    simp only [decide_eq_true_eq] at hp
    simp [hp]

/-! Helper lemmas about dict association lists. -/

theorem alGet_eq_none_of_not_mem (l : List (String × JValue)) (k : String)
    (h : k ∉ l.map Prod.fst) : alGet l k = none := by
  induction l with
  | nil => rfl
  | cons a rest ih =>
    simp only [List.map_cons, List.mem_cons] at h
    push_neg at h
    rcases a with ⟨k', w⟩
    simp only [alGet]
    rw [if_neg (fun he => h.1 he.symm)]
    exact ih h.2

theorem alGet_alErase_self (l : List (String × JValue)) (k : String)
    (h : (l.map Prod.fst).Nodup) : alGet (alErase l k) k = none := by
  induction l with
  | nil => rfl
  | cons a rest ih =>
    rcases a with ⟨k', w⟩
    simp only [List.map_cons, List.nodup_cons] at h
    simp only [alErase]
    by_cases hk : k' = k
    · rw [if_pos hk]
      exact alGet_eq_none_of_not_mem rest k (hk ▸ h.1)
    · rw [if_neg hk]
      simp only [alGet]
      rw [if_neg hk]
      exact ih h.2

theorem stateLookup_delete (tbl : List (String × String × String))
    (a k : String) (keys : List String) (hk : k ∈ keys) :
    stateLookup (tbl.filter (fun row => !(decide (row.1 = a ∧ row.2.1 ∈ keys)))) a k =
      none := by
  induction tbl with
  | nil => rfl
  | cons row rest ih =>
    simp only [List.filter_cons]
    by_cases hrow : row.1 = a ∧ row.2.1 ∈ keys
    · simpa [hrow] using ih
    · have hne : ¬(row.1 = a ∧ row.2.1 = k) := by
        rintro ⟨h1, h2⟩
        exact hrow ⟨h1, h2 ▸ hk⟩
      simp only [stateLookup, List.find?_cons] at *
      simpa [hrow, hne] using ih

theorem stateLookup_upsert_self (tbl : List (String × String × String))
    (a k sval : String) :
    stateLookup (upsertState tbl a k sval) a k = some sval := by
  induction tbl with
  | nil => simp [upsertState, stateLookup, List.find?]
  | cons row rest ih =>
    simp only [upsertState]
    by_cases hrow : row.1 = a ∧ row.2.1 = k
    · simp [hrow, stateLookup, List.find?]
    · rw [if_neg hrow]
      simp only [stateLookup, List.find?_cons] at *
      simpa [hrow] using ih

/-! Claim theorems about the State Proxy (C5, C6, C8) and the
Execution Context (C10). -/

/-- Claim C5: for every run and every sequence of State Proxy reads, writes
and deletes performed by the agent callable, the persisted agent_state is
unchanged at every point before the finalization flush: after interpreting
any list of callable actions (hence after any prefix of them), and after
the whole retry loop of a run, the agent_state table is exactly what it was
at run start, and a full state read through the Storage Layer returns
exactly the same result as at run start. -/
theorem state_writes_invisible_before_flush :
    (∀ steps p st buf,
       ((interpSteps steps p st buf).2.1).agent_state = st.agent_state) ∧
    (∀ prog fuel idx p st buf run le,
       ((attemptLoop (stepsFn prog) fuel idx p st buf run le).st).agent_state =
         st.agent_state) ∧
    (∀ steps p st buf a,
       (Store.get_state ((interpSteps steps p st buf).2.1) a).2 =
         (Store.get_state st a).2) := by
  have hloop : ∀ prog fuel idx p st buf run le,
      ((attemptLoop (stepsFn prog) fuel idx p st buf run le).st).agent_state =
        st.agent_state := by
    intro prog fuel
    induction fuel with
    | zero => intro idx p st buf run le; rfl
    | succ f ih =>
      intro idx p st buf run le
      have hst : (((stepsFn prog) idx p st buf).2.1).agent_state = st.agent_state := by
        have h := interpSteps_agent_state (prog.steps idx) p st buf
        rcases hi : interpSteps (prog.steps idx) p st buf with ⟨p', st', buf', e⟩
        rw [hi] at h
        simp only at h
        cases e <;> simp [stepsFn, hi, h]
      rcases hf : (stepsFn prog) idx p st buf with ⟨p', st', buf', r⟩
      rw [hf] at hst
      cases r <;> simp_all [attemptLoop, hf, ih (idx + 1) p' st' buf' run]
  refine ⟨interpSteps_agent_state, hloop, ?_⟩
  intro steps p st buf a
  simp [Store.get_state, interpSteps_agent_state steps p st buf]

/-- Claim C6: for a key k present in the agent state, deleting k through
the State Proxy succeeds, reading k afterwards but before flush raises
KeyError, and after flush the (agent, k) row is absent from the persisted
agent_state. -/
theorem delete_then_read_then_flush (a k : String) (st : StoreState)
    (d : List (String × JValue)) (v : JValue)
    (hdec : decodeStateRows (selectState st.agent_state a) = Except.ok d)
    (hnd : (d.map Prod.fst).Nodup)
    (hk : alGet d k = some v) :
    (StateProxy.delItem (mkStateProxy a) st k).2.2 = none ∧
    ((StateProxy.delItem (mkStateProxy a) st k).1.getItem
        (StateProxy.delItem (mkStateProxy a) st k).2.1 k).2.2 =
      Except.error (keyErrorText k) ∧
    stateLookup ((StateProxy.flush (StateProxy.delItem (mkStateProxy a) st k).1
        (StateProxy.delItem (mkStateProxy a) st k).2.1).2).agent_state a k =
      none := by
  have hdel : StateProxy.delItem (mkStateProxy a) st k =
      ({ agent := a, data := some (alErase d k), dirty := [],
         deleted_keys := [k] },
       { st with log := st.log ++ [StoreOp.readState a] }, none) := by
    simp [StateProxy.delItem, StateProxy.load, mkStateProxy, Store.get_state,
          hdec, hk, slInsert, alErase]
  refine ⟨by simp [hdel], ?_, ?_⟩
  · simp [hdel, StateProxy.getItem, StateProxy.load,
          alGet_alErase_self d k hnd]
  · simp only [hdel]
    simp only [StateProxy.flush]
    simp only [Store.delete_state_keys]
    simpa using stateLookup_delete st.agent_state a k [k] (by simp)

/-- Closed instance of delete_then_read_then_flush, discharging its
hypotheses at concrete inputs. -/
theorem delete_then_read_then_flush_witness :
    (StateProxy.delItem (mkStateProxy "a")
        { runs := [], agent_state := [("a", "k", "null")], log := [] } "k").2.2 =
      none ∧
    ((StateProxy.delItem (mkStateProxy "a")
        { runs := [], agent_state := [("a", "k", "null")], log := [] } "k").1.getItem
        (StateProxy.delItem (mkStateProxy "a")
          { runs := [], agent_state := [("a", "k", "null")], log := [] } "k").2.1
        "k").2.2 = Except.error (keyErrorText "k") ∧
    stateLookup ((StateProxy.flush
        (StateProxy.delItem (mkStateProxy "a")
          { runs := [], agent_state := [("a", "k", "null")], log := [] } "k").1
        (StateProxy.delItem (mkStateProxy "a")
          { runs := [], agent_state := [("a", "k", "null")], log := [] } "k").2.1).2).agent_state
      "a" "k" = none :=
  delete_then_read_then_flush "a" "k"
    { runs := [], agent_state := [("a", "k", "null")], log := [] }
    [("k", JValue.jnull)] JValue.jnull (by decide) (by decide) (by decide)

/-- Claim C8: when loaded, flush applies pending deletions first, then
pending upserts, then clears both pending sets; hence deleting a key k and
then setting k to v within the same run succeeds and, after flush, both
pending sets are empty and the persisted agent_state holds k with the
serialized form of v. -/
theorem delete_then_set_flush (a k : String) (v : JValue) (st : StoreState)
    (d : List (String × JValue)) (w : JValue)
    (hdec : decodeStateRows (selectState st.agent_state a) = Except.ok d)
    (hk : alGet d k = some w) :
    (StateProxy.delItem (mkStateProxy a) st k).2.2 = none ∧
    ((StateProxy.delItem (mkStateProxy a) st k).1.setItem
        (StateProxy.delItem (mkStateProxy a) st k).2.1 k v).2.2 = none ∧
    ((StateProxy.flush
        ((StateProxy.delItem (mkStateProxy a) st k).1.setItem
          (StateProxy.delItem (mkStateProxy a) st k).2.1 k v).1
        ((StateProxy.delItem (mkStateProxy a) st k).1.setItem
          (StateProxy.delItem (mkStateProxy a) st k).2.1 k v).2.1).1).dirty =
      [] ∧
    ((StateProxy.flush
        ((StateProxy.delItem (mkStateProxy a) st k).1.setItem
          (StateProxy.delItem (mkStateProxy a) st k).2.1 k v).1
        ((StateProxy.delItem (mkStateProxy a) st k).1.setItem
          (StateProxy.delItem (mkStateProxy a) st k).2.1 k v).2.1).1).deleted_keys =
      [] ∧
    stateLookup ((StateProxy.flush
        ((StateProxy.delItem (mkStateProxy a) st k).1.setItem
          (StateProxy.delItem (mkStateProxy a) st k).2.1 k v).1
        ((StateProxy.delItem (mkStateProxy a) st k).1.setItem
          (StateProxy.delItem (mkStateProxy a) st k).2.1 k v).2.1).2).agent_state
      a k = some (jsonDumps v) := by
  have hdel : StateProxy.delItem (mkStateProxy a) st k =
      ({ agent := a, data := some (alErase d k), dirty := [],
         deleted_keys := [k] },
       { st with log := st.log ++ [StoreOp.readState a] }, none) := by
    simp [StateProxy.delItem, StateProxy.load, mkStateProxy, Store.get_state,
          hdec, hk, slInsert, alErase]
  have hset : (StateProxy.delItem (mkStateProxy a) st k).1.setItem
      (StateProxy.delItem (mkStateProxy a) st k).2.1 k v =
      ({ agent := a, data := some (alInsert (alErase d k) k v),
         dirty := [(k, v)], deleted_keys := [k] },
       { st with log := st.log ++ [StoreOp.readState a] }, none) := by
    simp [hdel, StateProxy.setItem, StateProxy.load, alInsert]
  refine ⟨by simp [hdel], by simp [hset], ?_⟩
  simp only [hset, StateProxy.flush]
  simp only [reduceCtorEq, if_false, List.cons_ne_self]
  norm_num
  simp [Store.set_state_bulk, Store.delete_state_keys,
        stateLookup_upsert_self]

/-- Closed instance of delete_then_set_flush, discharging its hypotheses
at concrete inputs. -/
theorem delete_then_set_flush_witness :
    (StateProxy.delItem (mkStateProxy "a")
        { runs := [], agent_state := [("a", "k", "null")], log := [] } "k").2.2 =
      none ∧
    stateLookup ((StateProxy.flush
        ((StateProxy.delItem (mkStateProxy "a")
            { runs := [], agent_state := [("a", "k", "null")], log := [] } "k").1.setItem
          (StateProxy.delItem (mkStateProxy "a")
            { runs := [], agent_state := [("a", "k", "null")], log := [] } "k").2.1
          "k" (JValue.jint 5)).1
        ((StateProxy.delItem (mkStateProxy "a")
            { runs := [], agent_state := [("a", "k", "null")], log := [] } "k").1.setItem
          (StateProxy.delItem (mkStateProxy "a")
            { runs := [], agent_state := [("a", "k", "null")], log := [] } "k").2.1
          "k" (JValue.jint 5)).2.1).2).agent_state "a" "k" =
      some (jsonDumps (JValue.jint 5)) := by
  have h := delete_then_set_flush "a" "k" (JValue.jint 5)
    { runs := [], agent_state := [("a", "k", "null")], log := [] }
    [("k", JValue.jnull)] JValue.jnull (by decide) (by decide)
  exact ⟨h.1, h.2.2.2.2⟩

/-- The Run record after the post-loop error bookkeeping of execute_agent. -/
theorem exec_run1_id (out : LoopOut) :
    (match out.interrupted with
     | some nm => { out.run with status := "error", error := some (nm.1 ++ ": " ++ nm.2) }
     | none => match out.lastError with
       | some e => { out.run with status := "error", error := some e }
       | none => out.run).id = out.run.id := by
  rcases out with ⟨p, st, buf, run, le, n, i⟩
  cases i <;> cases le <;> rfl

/-- execute_agent, decomposed around the result of its retry loop. -/
theorem execute_agent_decomp (a : String) (R : Nat) (fn : AgentFn)
    (run_id : String) (st0 : StoreState) (t0 t1 : Nat) (out : LoopOut)
    (hout : attemptLoop fn (1 + R) 1 (mkStateProxy a)
        (Store.save_run st0
          { id := run_id, agent := a, status := "running",
            started_at := some t0 })
        "" { id := run_id, agent := a, status := "running",
             started_at := some t0 } none = out) :
    execute_agent a R fn run_id st0 t0 t1 =
      { run := { (match out.interrupted with
                  | some nm => { out.run with status := "error", error := some (nm.1 ++ ": " ++ nm.2) }
                  | none => match out.lastError with
                    | some e => { out.run with status := "error", error := some e }
                    | none => out.run) with
                 output := if out.buf = "" then none else some out.buf,
                 finished_at := some t1, duration_ms := some (t1 - t0) },
        st := Store.update_run ((StateProxy.flush out.p out.st).2)
          { (match out.interrupted with
             | some nm => { out.run with status := "error", error := some (nm.1 ++ ": " ++ nm.2) }
             | none => match out.lastError with
               | some e => { out.run with status := "error", error := some e }
               | none => out.run) with
            output := if out.buf = "" then none else some out.buf,
            finished_at := some t1, duration_ms := some (t1 - t0) },
        invocations := out.invocations,
        raised := out.interrupted } := by
  subst hout
  rfl

theorem interpSteps_echo_only (steps : List AgentStep)
    (h : ∀ s ∈ steps, ∃ t, s = AgentStep.echo t) :
    ∀ p st buf, ∃ buf', interpSteps steps p st buf = (p, st, buf', none) := by
  induction steps with
  | nil => intro p st buf; exact ⟨buf, rfl⟩
  | cons s rest ih =>
    intro p st buf
    obtain ⟨t, ht⟩ := h s (List.mem_cons_self s rest)
    subst ht
    exact ih (fun x hx => h x (List.mem_cons_of_mem _ hx)) p st (buf ++ t)

theorem attemptLoop_fix (fn : AgentFn)
    (h : ∀ i p st buf, (fn i p st buf).1 = p ∧ (fn i p st buf).2.1 = st) :
    ∀ fuel idx p st buf run le,
      (attemptLoop fn fuel idx p st buf run le).p = p ∧
      (attemptLoop fn fuel idx p st buf run le).st = st := by
  intro fuel
  induction fuel with
  | zero => intro idx p st buf run le; exact ⟨rfl, rfl⟩
  | succ f ih =>
    intro idx p st buf run le
    have hi := h idx p st buf
    rcases hf : fn idx p st buf with ⟨p', st', buf', r⟩
    rw [hf] at hi
    simp only at hi
    obtain ⟨hp, hst⟩ := hi
    subst hp hst
    cases r <;> simp_all [attemptLoop, hf, ih (idx + 1) p' st' buf' run]

theorem attemptLoop_run_id (fn : AgentFn) :
    ∀ fuel idx p st buf run le,
      ((attemptLoop fn fuel idx p st buf run le).run).id = run.id := by
  intro fuel
  induction fuel with
  | zero => intro idx p st buf run le; rfl
  | succ f ih =>
    intro idx p st buf run le
    rcases hf : fn idx p st buf with ⟨p', st', buf', r⟩
    cases r <;> simp_all [attemptLoop, hf, ih (idx + 1) p' st' buf' run]

/-- Claim C7: the State Proxy touches the Storage Layer only on first read
or write: flushing a never-accessed proxy changes nothing (a no-op, no
storage reads or writes), and a whole run whose callable only writes
output performs exactly the two run-row operations and no state operation
at all. -/
theorem proxy_lazy_flush_noop :
    (∀ a st, StateProxy.flush (mkStateProxy a) st = (mkStateProxy a, st)) ∧
    (∀ a R prog run_id st0 t0 t1,
       (∀ i s, s ∈ prog.steps i → ∃ t, s = AgentStep.echo t) →
       (execute_agent a R (stepsFn prog) run_id st0 t0 t1).st.log =
         st0.log ++ [StoreOp.saveRun run_id, StoreOp.updateRun run_id]) := by
  have hflush : ∀ a st, StateProxy.flush (mkStateProxy a) st = (mkStateProxy a, st) := by
    intro a st
    simp [StateProxy.flush, mkStateProxy]
  refine ⟨hflush, ?_⟩
  intro a R prog run_id st0 t0 t1 hsteps
  have hecho : ∀ i p st buf,
      ((stepsFn prog) i p st buf).1 = p ∧ ((stepsFn prog) i p st buf).2.1 = st := by
    intro i p st buf
    obtain ⟨buf', hb⟩ := interpSteps_echo_only (prog.steps i) (hsteps i) p st buf
    cases hafter : prog.after i <;> simp [stepsFn, hb, hafter]
  obtain ⟨hp, hst⟩ := attemptLoop_fix (stepsFn prog) hecho (1 + R) 1 (mkStateProxy a)
    (Store.save_run st0
      { id := run_id, agent := a, status := "running", started_at := some t0 })
    "" { id := run_id, agent := a, status := "running", started_at := some t0 } none
  have hid := attemptLoop_run_id (stepsFn prog) (1 + R) 1 (mkStateProxy a)
    (Store.save_run st0
      { id := run_id, agent := a, status := "running", started_at := some t0 })
    "" { id := run_id, agent := a, status := "running", started_at := some t0 } none
  rw [execute_agent_decomp a R (stepsFn prog) run_id st0 t0 t1 _ rfl]
  rcases hE : attemptLoop (stepsFn prog) (1 + R) 1 (mkStateProxy a)
    (Store.save_run st0
      { id := run_id, agent := a, status := "running", started_at := some t0 })
    "" { id := run_id, agent := a, status := "running", started_at := some t0 } none
    with ⟨P, S, B, RU, LE, N, I⟩
  rw [hE] at hp hst hid
  simp only at hp hst hid
  subst hp hst
  cases I <;> cases LE <;>
    simp [hflush, Store.update_run, Store.save_run, hid]

theorem capStep_other (cs : CaptureState) (e : CapEvent) (t : Nat)
    (h : eventTid e ≠ t) : (capStep cs e).bufs t = cs.bufs t := by
  cases e with
  | setBuf tid => simp only [eventTid] at h; simp [capStep, Ne.symm h]
  | clearBuf tid => simp only [eventTid] at h; simp [capStep, Ne.symm h]
  | write tid s => simp only [eventTid] at h; simp [capStep, tsWrite, Ne.symm h]

theorem runTrace_bufs_congr (t : Nat) :
    ∀ (evs : List CapEvent) (cs cs' : CaptureState), cs.bufs t = cs'.bufs t →
      (runTrace cs evs).bufs t = (runTrace cs' evs).bufs t := by
  intro evs
  induction evs with
  | nil => intro cs cs' h; exact h
  | cons e rest ih =>
    intro cs cs' h
    apply ih
    cases e with
    | setBuf tid => by_cases ht : t = tid <;> simp [capStep, ht, h]
    | clearBuf tid => by_cases ht : t = tid <;> simp [capStep, ht, h]
    | write tid s =>
      by_cases ht : t = tid <;> simp [capStep, tsWrite, ht]
      · rw [← ht, h]
      · exact h

/-- Claim C9: output isolation of the thread-local capture: a write from
one worker never changes another worker buffer; over any interleaved trace
of capture events, the buffer a worker ends with is exactly what the
subtrace of its own events produces (so no other run output appears in
it); and every write is always forwarded to the original stream. -/
theorem capture_write_isolation :
    (∀ cs tid s t, t ≠ tid → (tsWrite cs tid s).bufs t = cs.bufs t) ∧
    (∀ evs (cs : CaptureState) t, (runTrace cs evs).bufs t =
       (runTrace cs (evs.filter (fun e => decide (eventTid e = t)))).bufs t) ∧
    (∀ evs (cs : CaptureState),
       (runTrace cs evs).original = cs.original ++ writesOf evs) := by
  refine ⟨?_, ?_, ?_⟩
  · intro cs tid s t h
    simp [tsWrite, h]
  · intro evs
    induction evs with
    | nil => intro cs t; rfl
    | cons e rest ih =>
      intro cs t
      by_cases he : eventTid e = t
      · simp only [runTrace, List.filter_cons, he, decide_eq_true_eq, if_pos trivial]
        simpa [he] using ih (capStep cs e) t
      · simp only [runTrace, List.filter_cons]
        have : (decide (eventTid e = t)) = false := by simp [he]
        rw [this]
        simp only [if_neg Bool.false_ne_true]
        calc (runTrace (capStep cs e) rest).bufs t
            = (runTrace (capStep cs e)
                (rest.filter (fun x => decide (eventTid x = t)))).bufs t :=
              ih (capStep cs e) t
          _ = (runTrace cs
                (rest.filter (fun x => decide (eventTid x = t)))).bufs t :=
              runTrace_bufs_congr t _ _ _ (capStep_other cs e t he)
  · intro evs
    induction evs with
    | nil => intro cs; simp [runTrace, writesOf]
    | cons e rest ih =>
      intro cs
      cases e with
      | setBuf tid => simp [runTrace, writesOf, ih, capStep]
      | clearBuf tid => simp [runTrace, writesOf, ih, capStep]
      | write tid s =>
        simp [runTrace, writesOf, ih, capStep, tsWrite, String.append_assoc]

/-- Closed instance of capture_write_isolation, discharging its hypothesis
at concrete inputs. -/
theorem capture_write_isolation_witness :
    ((1 : Nat) ≠ 0 ∧
      (tsWrite { bufs := fun t => if t = 0 then some "A" else none,
                 original := "o" } 0 "x").bufs 1 =
        ({ bufs := fun t => if t = 0 then some "A" else none,
           original := "o" } : CaptureState).bufs 1) ∧
    (runTrace { bufs := fun _ => none, original := "" }
        [CapEvent.setBuf 0, CapEvent.write 0 "x", CapEvent.write 1 "y"]).bufs 0 =
      (runTrace { bufs := fun _ => none, original := "" }
        ([CapEvent.setBuf 0, CapEvent.write 0 "x",
          CapEvent.write 1 "y"].filter (fun e => decide (eventTid e = 0)))).bufs 0 ∧
    (runTrace { bufs := fun _ => none, original := "" }
        [CapEvent.write 0 "x", CapEvent.write 1 "y"]).original =
      "" ++ writesOf [CapEvent.write 0 "x", CapEvent.write 1 "y"] := by
  refine ⟨⟨by decide, capture_write_isolation.1 _ 0 "x" 1 (by decide)⟩,
          capture_write_isolation.2.1 _ _ 0, capture_write_isolation.2.2 _ _⟩

/-- Closed instance of proxy_lazy_flush_noop, discharging its hypothesis at
concrete inputs. -/
theorem proxy_lazy_flush_noop_witness :
    (StateProxy.flush (mkStateProxy "a")
        { runs := [], agent_state := [], log := [] } =
      (mkStateProxy "a", { runs := [], agent_state := [], log := [] })) ∧
    (execute_agent "a" 2
        (stepsFn { steps := fun _ => [AgentStep.echo "hi"],
                   after := fun _ => AttemptResult.ok none })
        "r1" { runs := [], agent_state := [], log := [] } 0 5).st.log =
      [] ++ [StoreOp.saveRun "r1", StoreOp.updateRun "r1"] := by
  refine ⟨proxy_lazy_flush_noop.1 "a" _, proxy_lazy_flush_noop.2 "a" 2 _ "r1" _ 0 5 ?_⟩
  intro i s hs
  simp only [List.mem_singleton] at hs
  exact ⟨"hi", hs⟩

theorem attemptLoop_runs (fn : AgentFn)
    (h : ∀ i p st buf, ((fn i p st buf).2.1).runs = st.runs) :
    ∀ fuel idx p st buf run le,
      ((attemptLoop fn fuel idx p st buf run le).st).runs = st.runs := by
  intro fuel
  induction fuel with
  | zero => intro idx p st buf run le; rfl
  | succ f ih =>
    intro idx p st buf run le
    have hi := h idx p st buf
    rcases hf : fn idx p st buf with ⟨p', st', buf', r⟩
    rw [hf] at hi
    simp only at hi
    cases r <;> simp_all [attemptLoop, hf, ih (idx + 1) p' st' buf' run]

/-- The retry loop when the callable fails on attempts idx..idx+j-1 and
returns normally on attempt idx+j: the loop ends in the success state
after exactly j+1 invocations. -/
theorem attemptLoop_ok_of (fn : AgentFn) (msgs : Nat → String)
    (v : Option JValue) :
    ∀ (j fuel idx : Nat) (p : StateProxy) (st : StoreState) (buf : String)
      (run : Run) (le : Option String),
      j + 1 ≤ fuel →
      (∀ i p' st' buf', idx ≤ i → i < idx + j →
        (fn i p' st' buf').2.2.2 = AttemptResult.exc (msgs i)) →
      (∀ p' st' buf', (fn (idx + j) p' st' buf').2.2.2 = AttemptResult.ok v) →
      (attemptLoop fn fuel idx p st buf run le).run =
          { run with status := "success", result := Option.map pyStr v } ∧
      (attemptLoop fn fuel idx p st buf run le).lastError = none ∧
      (attemptLoop fn fuel idx p st buf run le).interrupted = none ∧
      (attemptLoop fn fuel idx p st buf run le).invocations = j + 1 := by
  intro j
  induction j with
  | zero =>
    intro fuel idx p st buf run le hfuel hfail hok
    obtain ⟨f, rfl⟩ : ∃ f, fuel = f + 1 := ⟨fuel - 1, by omega⟩
    have h := hok p st buf
    rw [Nat.add_zero] at h
    rcases hf : fn idx p st buf with ⟨p', st', buf', r⟩
    rw [hf] at h
    simp only at h
    subst h
    simp [attemptLoop, hf]
  | succ j ih =>
    intro fuel idx p st buf run le hfuel hfail hok
    obtain ⟨f, rfl⟩ : ∃ f, fuel = f + 1 := ⟨fuel - 1, by omega⟩
    have h := hfail idx p st buf (Nat.le_refl idx) (by omega)
    rcases hf : fn idx p st buf with ⟨p', st', buf', r⟩
    rw [hf] at h
    simp only at h
    subst h
    have hrec := ih f (idx + 1) p' st' buf' run (some (msgs idx)) (by omega)
      (fun i q s b h1 h2 => hfail i q s b (by omega) (by omega))
      (fun q s b => by
        have h2 := hok q s b
        have he : idx + 1 + j = idx + (j + 1) := by omega
        rw [he]
        exact h2)
    simp only [attemptLoop, hf]
    exact ⟨hrec.1, hrec.2.1, hrec.2.2.1, by rw [hrec.2.2.2]⟩

/-- The retry loop when every attempt fails with a recoverable exception,
under an invariant on the proxy, store and buffer: it consumes all fuel,
records the final attempt message as last error, and is not interrupted. -/
theorem attemptLoop_fail_inv (fn : AgentFn) (msgs : Nat → String)
    (I : StateProxy → StoreState → String → Prop)
    (hstep : ∀ i p st buf, I p st buf →
      (fn i p st buf).2.2.2 = AttemptResult.exc (msgs i) ∧
      I (fn i p st buf).1 (fn i p st buf).2.1 (fn i p st buf).2.2.1) :
    ∀ fuel idx p st buf run le, 1 ≤ fuel → I p st buf →
      (attemptLoop fn fuel idx p st buf run le).run = run ∧
      (attemptLoop fn fuel idx p st buf run le).lastError =
        some (msgs (idx + fuel - 1)) ∧
      (attemptLoop fn fuel idx p st buf run le).interrupted = none ∧
      (attemptLoop fn fuel idx p st buf run le).invocations = fuel := by
  intro fuel
  induction fuel with
  | zero => intro idx p st buf run le h; omega
  | succ f ih =>
    intro idx p st buf run le hf hI
    obtain ⟨hexc, hI'⟩ := hstep idx p st buf hI
    rcases hfn : fn idx p st buf with ⟨p', st', buf', r⟩
    rw [hfn] at hexc hI'
    simp only at hexc hI'
    subst hexc
    cases f with
    | zero => simp [attemptLoop, hfn]
    | succ g =>
      have hrec := ih (idx + 1) p' st' buf' run (some (msgs idx)) (by omega) hI'
      have he : idx + 1 + (g + 1) - 1 = idx + (g + 1 + 1) - 1 := by omega
      rw [he] at hrec
      have hstep1 : attemptLoop fn (g + 1 + 1) idx p st buf run le =
          { attemptLoop fn (g + 1) (idx + 1) p' st' buf' run (some (msgs idx)) with
            invocations :=
              (attemptLoop fn (g + 1) (idx + 1) p' st' buf' run
                (some (msgs idx))).invocations + 1 } := by
        rw [attemptLoop, hfn]
      rw [hstep1]
      exact ⟨hrec.1, hrec.2.1, hrec.2.2.1, by rw [hrec.2.2.2]⟩

/-- Claim C1: for every retry count R and a callable that raises on its
first k attempts (k ≤ R) and then returns normally (and, as an agent
computation, does not itself alter the runs table), execute_agent returns
a Run with status success whose result is the stringified return value (or
absent when none), with no recorded error, nothing re-raised, and exactly
one Run row with that run id in storage. -/
theorem execute_retries_then_success (R k : Nat) (hk : k ≤ R) (fn : AgentFn)
    (msgs : Nat → String) (v : Option JValue)
    (hruns : ∀ i p st buf, ((fn i p st buf).2.1).runs = st.runs)
    (hfail : ∀ i p st buf, 1 ≤ i → i < 1 + k →
      (fn i p st buf).2.2.2 = AttemptResult.exc (msgs i))
    (hok : ∀ p st buf, (fn (1 + k) p st buf).2.2.2 = AttemptResult.ok v)
    (a run_id : String) (st0 : StoreState) (t0 t1 : Nat)
    (hfresh : countRuns st0.runs run_id = 0) :
    (execute_agent a R fn run_id st0 t0 t1).run.status = "success" ∧
    (execute_agent a R fn run_id st0 t0 t1).run.result = Option.map pyStr v ∧
    (execute_agent a R fn run_id st0 t0 t1).run.error = none ∧
    (execute_agent a R fn run_id st0 t0 t1).raised = none ∧
    countRuns ((execute_agent a R fn run_id st0 t0 t1).st).runs run_id = 1 := by
  have hloop := attemptLoop_ok_of fn msgs v k (1 + R) 1 (mkStateProxy a)
    (Store.save_run st0
      { id := run_id, agent := a, status := "running", started_at := some t0 })
    "" { id := run_id, agent := a, status := "running", started_at := some t0 }
    none (by omega) hfail hok
  have hrs := attemptLoop_runs fn hruns (1 + R) 1 (mkStateProxy a)
    (Store.save_run st0
      { id := run_id, agent := a, status := "running", started_at := some t0 })
    "" { id := run_id, agent := a, status := "running", started_at := some t0 }
    none
  rw [execute_agent_decomp a R fn run_id st0 t0 t1 _ rfl]
  rcases hE : attemptLoop fn (1 + R) 1 (mkStateProxy a)
    (Store.save_run st0
      { id := run_id, agent := a, status := "running", started_at := some t0 })
    "" { id := run_id, agent := a, status := "running", started_at := some t0 }
    none with ⟨P, S, B, RU, LE, N, I⟩
  rw [hE] at hloop hrs
  simp only at hloop hrs
  obtain ⟨hRU, hLE, hI, hN⟩ := hloop
  subst hRU hLE hI
  refine ⟨by simp, by simp, by simp, by simp, ?_⟩
  simp only
  rw [countRuns_update]
  rw [flush_runs P S, hrs]
  simp only [Store.save_run]
  have := countRuns_append_self st0.runs
    { id := run_id, agent := a, status := "running", started_at := some t0 }
  simp only at this
  rw [this, hfresh]

/-- Closed instance of execute_retries_then_success, discharging its
hypotheses at concrete inputs: retries 1, one failure then success. -/
theorem execute_retries_then_success_witness :
    (1 : Nat) ≤ 1 ∧
    (execute_agent "a" 1
        (fun i p st buf =>
          (p, st, buf, if i = 1 then AttemptResult.exc "boom"
                       else AttemptResult.ok (some (JValue.jstr "ok"))))
        "r" { runs := [], agent_state := [], log := [] } 0 5).run.status =
      "success" ∧
    (execute_agent "a" 1
        (fun i p st buf =>
          (p, st, buf, if i = 1 then AttemptResult.exc "boom"
                       else AttemptResult.ok (some (JValue.jstr "ok"))))
        "r" { runs := [], agent_state := [], log := [] } 0 5).run.result =
      Option.map pyStr (some (JValue.jstr "ok")) := by
  have h := execute_retries_then_success 1 1 (by decide)
    (fun i p st buf =>
      (p, st, buf, if i = 1 then AttemptResult.exc "boom"
                   else AttemptResult.ok (some (JValue.jstr "ok"))))
    (fun _ => "boom") (some (JValue.jstr "ok"))
    (fun i p st buf => rfl)
    (fun i p st buf h1 h2 => by
      have : i = 1 := by omega
      subst this
      rfl)
    (fun p st buf => rfl)
    "a" "r" { runs := [], agent_state := [], log := [] } 0 5 rfl
  exact ⟨by decide, h.1, h.2.1⟩

/-- Claim C2: for every retry count R, a callable that raises a
recoverable exception on every attempt (and does not itself alter the runs
table) is invoked exactly R+1 times; the result is one Run with status
error whose error text is the final attempt message only (attempt R+1),
nothing is re-raised, and exactly one Run row with that run id exists. -/
theorem execute_exhausts_retries (R : Nat) (fn : AgentFn)
    (msgs : Nat → String)
    (hruns : ∀ i p st buf, ((fn i p st buf).2.1).runs = st.runs)
    (hfail : ∀ i p st buf, (fn i p st buf).2.2.2 = AttemptResult.exc (msgs i))
    (a run_id : String) (st0 : StoreState) (t0 t1 : Nat)
    (hfresh : countRuns st0.runs run_id = 0) :
    (execute_agent a R fn run_id st0 t0 t1).invocations = R + 1 ∧
    (execute_agent a R fn run_id st0 t0 t1).run.status = "error" ∧
    (execute_agent a R fn run_id st0 t0 t1).run.error = some (msgs (R + 1)) ∧
    (execute_agent a R fn run_id st0 t0 t1).raised = none ∧
    countRuns ((execute_agent a R fn run_id st0 t0 t1).st).runs run_id = 1 := by
  have hloop := attemptLoop_fail_inv fn msgs (fun _ _ _ => True)
    (fun i p st buf _ => ⟨hfail i p st buf, trivial⟩) (1 + R) 1 (mkStateProxy a)
    (Store.save_run st0
      { id := run_id, agent := a, status := "running", started_at := some t0 })
    "" { id := run_id, agent := a, status := "running", started_at := some t0 }
    none (by omega) trivial
  have hrs := attemptLoop_runs fn hruns (1 + R) 1 (mkStateProxy a)
    (Store.save_run st0
      { id := run_id, agent := a, status := "running", started_at := some t0 })
    "" { id := run_id, agent := a, status := "running", started_at := some t0 }
    none
  rw [execute_agent_decomp a R fn run_id st0 t0 t1 _ rfl]
  rcases hE : attemptLoop fn (1 + R) 1 (mkStateProxy a)
    (Store.save_run st0
      { id := run_id, agent := a, status := "running", started_at := some t0 })
    "" { id := run_id, agent := a, status := "running", started_at := some t0 }
    none with ⟨P, S, B, RU, LE, N, I⟩
  rw [hE] at hloop hrs
  simp only at hloop hrs
  obtain ⟨hRU, hLE, hI, hN⟩ := hloop
  have hidx : 1 + (1 + R) - 1 = R + 1 := by omega
  rw [hidx] at hLE
  subst hRU hLE hI
  refine ⟨by simp [hN]; omega, by simp, by simp, by simp, ?_⟩
  simp only
  rw [countRuns_update]
  rw [flush_runs P S, hrs]
  simp only [Store.save_run]
  have := countRuns_append_self st0.runs
    { id := run_id, agent := a, status := "running", started_at := some t0 }
  simp only at this
  rw [this, hfresh]

/-- Closed instance of execute_exhausts_retries, discharging its
hypotheses at concrete inputs: retries 2, distinct message per attempt,
showing the recorded error is the final attempt message only. -/
theorem execute_exhausts_retries_witness :
    (execute_agent "a" 2
        (fun i p st buf =>
          (p, st, buf, AttemptResult.exc ("boom" ++ toString i)))
        "r" { runs := [], agent_state := [], log := [] } 0 5).invocations =
      2 + 1 ∧
    (execute_agent "a" 2
        (fun i p st buf =>
          (p, st, buf, AttemptResult.exc ("boom" ++ toString i)))
        "r" { runs := [], agent_state := [], log := [] } 0 5).run.error =
      some ("boom" ++ toString (2 + 1)) := by
  have h := execute_exhausts_retries 2
    (fun i p st buf => (p, st, buf, AttemptResult.exc ("boom" ++ toString i)))
    (fun i => "boom" ++ toString i)
    (fun i p st buf => rfl)
    (fun i p st buf => rfl)
    "a" "r" { runs := [], agent_state := [], log := [] } 0 5 rfl
  exact ⟨h.1, h.2.2.1⟩

/-- Claim C3: a callable that writes one state key and then raises a
non-recoverable interruption is not retried (one invocation, for every
retry count R): finalization bookkeeping still completes — the State
Proxy is flushed (the written key is persisted), the Run is marked error
with finished_at and duration_ms set, and the Run row in storage is
updated to the final Run — and only then is the interruption re-raised to
the caller. -/
theorem execute_interruption_finalizes (R : Nat) (n m a k run_id : String)
    (v : JValue) (st0 : StoreState) (d : List (String × JValue))
    (t0 t1 : Nat)
    (hdec : decodeStateRows (selectState st0.agent_state a) = Except.ok d)
    (hfresh : countRuns st0.runs run_id = 0) :
    (execute_agent a R (stepsFn
        { steps := fun _ => [AgentStep.setS k v],
          after := fun _ => AttemptResult.intr n m })
        run_id st0 t0 t1).invocations = 1 ∧
    (execute_agent a R (stepsFn
        { steps := fun _ => [AgentStep.setS k v],
          after := fun _ => AttemptResult.intr n m })
        run_id st0 t0 t1).raised = some (n, m) ∧
    (execute_agent a R (stepsFn
        { steps := fun _ => [AgentStep.setS k v],
          after := fun _ => AttemptResult.intr n m })
        run_id st0 t0 t1).run.status = "error" ∧
    (execute_agent a R (stepsFn
        { steps := fun _ => [AgentStep.setS k v],
          after := fun _ => AttemptResult.intr n m })
        run_id st0 t0 t1).run.error = some (n ++ ": " ++ m) ∧
    (execute_agent a R (stepsFn
        { steps := fun _ => [AgentStep.setS k v],
          after := fun _ => AttemptResult.intr n m })
        run_id st0 t0 t1).run.finished_at = some t1 ∧
    (execute_agent a R (stepsFn
        { steps := fun _ => [AgentStep.setS k v],
          after := fun _ => AttemptResult.intr n m })
        run_id st0 t0 t1).run.duration_ms = some (t1 - t0) ∧
    stateLookup (((execute_agent a R (stepsFn
        { steps := fun _ => [AgentStep.setS k v],
          after := fun _ => AttemptResult.intr n m })
        run_id st0 t0 t1).st).agent_state) a k = some (jsonDumps v) ∧
    runLookup (((execute_agent a R (stepsFn
        { steps := fun _ => [AgentStep.setS k v],
          after := fun _ => AttemptResult.intr n m })
        run_id st0 t0 t1).st).runs) run_id =
      some ((execute_agent a R (stepsFn
        { steps := fun _ => [AgentStep.setS k v],
          after := fun _ => AttemptResult.intr n m })
        run_id st0 t0 t1).run) := by
  rw [execute_agent_decomp a R _ run_id st0 t0 t1 _ rfl]
  have hfn1 : (stepsFn
      { steps := fun _ => [AgentStep.setS k v],
        after := fun _ => AttemptResult.intr n m }) 1 (mkStateProxy a)
      (Store.save_run st0
        { id := run_id, agent := a, status := "running",
          started_at := some t0 }) "" =
      ({ agent := a, data := some (alInsert d k v), dirty := alInsert [] k v,
         deleted_keys := [] },
       { runs := st0.runs ++
           [{ id := run_id, agent := a, status := "running",
              started_at := some t0 }],
         agent_state := st0.agent_state,
         log := st0.log ++ [StoreOp.saveRun run_id] ++ [StoreOp.readState a] },
       "", AttemptResult.intr n m) := by
    simp [stepsFn, interpSteps, StateProxy.setItem, StateProxy.load,
          mkStateProxy, Store.get_state, Store.save_run, hdec]
  have hL : attemptLoop (stepsFn
      { steps := fun _ => [AgentStep.setS k v],
        after := fun _ => AttemptResult.intr n m }) (1 + R) 1 (mkStateProxy a)
      (Store.save_run st0
        { id := run_id, agent := a, status := "running",
          started_at := some t0 })
      "" { id := run_id, agent := a, status := "running",
           started_at := some t0 } none =
      LoopOut.mk
        { agent := a, data := some (alInsert d k v), dirty := alInsert [] k v, deleted_keys := [] }
        { runs := st0.runs ++ [{ id := run_id, agent := a, status := "running", started_at := some t0 }],
          agent_state := st0.agent_state,
          log := st0.log ++ [StoreOp.saveRun run_id] ++ [StoreOp.readState a] }
        ""
        { id := run_id, agent := a, status := "running", started_at := some t0 }
        none 1 (some (n, m)) := by
    obtain ⟨f, hf⟩ : ∃ f, 1 + R = f + 1 := ⟨R, by omega⟩
    rw [hf, attemptLoop, hfn1]
  rw [hL]
  refine ⟨rfl, rfl, rfl, rfl, rfl, rfl, ?_, ?_⟩
  · simp only [StateProxy.flush, alInsert]
    simp [Store.update_run, Store.set_state_bulk, Store.delete_state_keys,
          stateLookup_upsert_self]
  · simp only [StateProxy.flush, alInsert]
    simp only [Store.set_state_bulk, Store.delete_state_keys]
    norm_num
    rw [runLookup_update]
    simp only
    rw [runLookup_append_self st0.runs _ (by simpa using hfresh)]
    simp [applyUpdate]

/-- Closed instance of execute_interruption_finalizes, discharging its
hypotheses at concrete inputs. -/
theorem execute_interruption_finalizes_witness :
    (execute_agent "a" 3 (stepsFn
        { steps := fun _ => [AgentStep.setS "k" (JValue.jint 7)],
          after := fun _ => AttemptResult.intr "KeyboardInterrupt" "stop" })
        "r" { runs := [], agent_state := [], log := [] } 0 5).invocations = 1 ∧
    (execute_agent "a" 3 (stepsFn
        { steps := fun _ => [AgentStep.setS "k" (JValue.jint 7)],
          after := fun _ => AttemptResult.intr "KeyboardInterrupt" "stop" })
        "r" { runs := [], agent_state := [], log := [] } 0 5).raised =
      some ("KeyboardInterrupt", "stop") ∧
    stateLookup ((execute_agent "a" 3 (stepsFn
        { steps := fun _ => [AgentStep.setS "k" (JValue.jint 7)],
          after := fun _ => AttemptResult.intr "KeyboardInterrupt" "stop" })
        "r" { runs := [], agent_state := [], log := [] } 0 5).st.agent_state)
      "a" "k" = some (jsonDumps (JValue.jint 7)) := by
  have h := execute_interruption_finalizes 3 "KeyboardInterrupt" "stop" "a" "k"
    "r" (JValue.jint 7) { runs := [], agent_state := [], log := [] } [] 0 5
    rfl rfl
  exact ⟨h.1, h.2.1, h.2.2.2.2.2.2.1⟩

/-- Counterexample to claim C4 as stated: with a malformed persisted state
value, a callable that reads its state inside an attempt, and retries = 1,
execute_agent re-raises nothing to the caller, invokes the callable twice
(the failure is retried), and absorbs the deserialization failure into the
Run error field — the opposite of "propagates directly, never retried or
absorbed". -/
theorem execute_decode_error_absorbed_cex :
    (execute_agent "a" 1 (stepsFn
        { steps := fun _ => [AgentStep.getS "k"],
          after := fun _ => AttemptResult.ok none })
        "r" { runs := [], agent_state := [("a", "k", "notjson")], log := [] }
        0 5).raised = none ∧
    (execute_agent "a" 1 (stepsFn
        { steps := fun _ => [AgentStep.getS "k"],
          after := fun _ => AttemptResult.ok none })
        "r" { runs := [], agent_state := [("a", "k", "notjson")], log := [] }
        0 5).invocations = 2 ∧
    (execute_agent "a" 1 (stepsFn
        { steps := fun _ => [AgentStep.getS "k"],
          after := fun _ => AttemptResult.ok none })
        "r" { runs := [], agent_state := [("a", "k", "notjson")], log := [] }
        0 5).run.status = "error" ∧
    (execute_agent "a" 1 (stepsFn
        { steps := fun _ => [AgentStep.getS "k"],
          after := fun _ => AttemptResult.ok none })
        "r" { runs := [], agent_state := [("a", "k", "notjson")], log := [] }
        0 5).run.error = some (jsonDecodeErrorText "notjson") := by
  refine ⟨by decide, by decide, by decide, by decide⟩

/-- Amended claim C4: a malformed persisted state value surfaces as an
error of Store.get_state itself (the Storage Layer does not swallow it);
but when it is first read through the State Proxy inside an attempt, the
retry loop of execute_agent catches it like any recoverable agent
failure: the attempt is retried (R+1 invocations in all), nothing
propagates to the caller, and the failure is absorbed into the Run error
field. -/
theorem store_decode_error_absorbed (R : Nat) (a k s run_id : String)
    (st0 : StoreState) (t0 t1 : Nat)
    (hsel : selectState st0.agent_state a = [(k, s)])
    (hbad : jsonLoads s = none) :
    (Store.get_state st0 a).2 = Except.error (jsonDecodeErrorText s) ∧
    (execute_agent a R (stepsFn
        { steps := fun _ => [AgentStep.getS k],
          after := fun _ => AttemptResult.ok none })
        run_id st0 t0 t1).raised = none ∧
    (execute_agent a R (stepsFn
        { steps := fun _ => [AgentStep.getS k],
          after := fun _ => AttemptResult.ok none })
        run_id st0 t0 t1).invocations = R + 1 ∧
    (execute_agent a R (stepsFn
        { steps := fun _ => [AgentStep.getS k],
          after := fun _ => AttemptResult.ok none })
        run_id st0 t0 t1).run.status = "error" ∧
    (execute_agent a R (stepsFn
        { steps := fun _ => [AgentStep.getS k],
          after := fun _ => AttemptResult.ok none })
        run_id st0 t0 t1).run.error = some (jsonDecodeErrorText s) := by
  refine ⟨by simp [Store.get_state, hsel, decodeStateRows, hbad], ?_⟩
  rw [execute_agent_decomp a R _ run_id st0 t0 t1 _ rfl]
  set prog : StepProgram :=
    { steps := fun _ => [AgentStep.getS k],
      after := fun _ => AttemptResult.ok none } with hprog
  have hstep : ∀ i p st buf,
      (p.agent = a ∧ p.data = none ∧ selectState st.agent_state a = [(k, s)]) →
      ((stepsFn prog) i p st buf).2.2.2 =
        AttemptResult.exc (jsonDecodeErrorText s) ∧
      (((stepsFn prog) i p st buf).1.agent = a ∧
        ((stepsFn prog) i p st buf).1.data = none ∧
        selectState (((stepsFn prog) i p st buf).2.1).agent_state a =
          [(k, s)]) := by
    intro i p st buf hI
    obtain ⟨ha, hd, hsel'⟩ := hI
    simp [hprog, stepsFn, interpSteps, StateProxy.getItem, StateProxy.load, hd,
          ha, Store.get_state, hsel', decodeStateRows, hbad]
  have hloop := attemptLoop_fail_inv (stepsFn prog)
    (fun _ => jsonDecodeErrorText s)
    (fun p st buf =>
      p.agent = a ∧ p.data = none ∧ selectState st.agent_state a = [(k, s)])
    hstep (1 + R) 1 (mkStateProxy a)
    (Store.save_run st0
      { id := run_id, agent := a, status := "running", started_at := some t0 })
    "" { id := run_id, agent := a, status := "running", started_at := some t0 }
    none (by omega) ⟨rfl, rfl, by simpa [Store.save_run] using hsel⟩
  rcases hE : attemptLoop (stepsFn prog) (1 + R) 1 (mkStateProxy a)
    (Store.save_run st0
      { id := run_id, agent := a, status := "running", started_at := some t0 })
    "" { id := run_id, agent := a, status := "running", started_at := some t0 }
    none with ⟨P, S, B, RU, LE, N, I⟩
  rw [hE] at hloop
  simp only at hloop
  obtain ⟨hRU, hLE, hI, hN⟩ := hloop
  subst hRU hLE hI
  exact ⟨by simp, by simp [hN]; omega, by simp, by simp⟩

/-- Closed instance of store_decode_error_absorbed, discharging its
hypotheses at concrete inputs. -/
theorem store_decode_error_absorbed_witness :
    (Store.get_state
        { runs := [], agent_state := [("a", "k", "notjson")], log := [] }
        "a").2 = Except.error (jsonDecodeErrorText "notjson") ∧
    (execute_agent "a" 2 (stepsFn
        { steps := fun _ => [AgentStep.getS "k"],
          after := fun _ => AttemptResult.ok none })
        "r2" { runs := [], agent_state := [("a", "k", "notjson")], log := [] }
        0 5).invocations = 2 + 1 := by
  have h := store_decode_error_absorbed 2 "a" "k" "notjson" "r2"
    { runs := [], agent_state := [("a", "k", "notjson")], log := [] } 0 5
    (by decide) (by decide)
  exact ⟨h.1, h.2.2.1⟩

/-- Claim C10: the state property of an AgentContext caches its StateProxy:
a second access returns exactly the proxy produced by the first access and
leaves the context unchanged, so the whole run shares one in-memory view. -/
theorem context_state_cached (c : AgentContext) :
    ((c.state).2).state = ((c.state).1, (c.state).2) := by
  cases h : c.stateCache <;> simp [AgentContext.state, h]

end Watchd
